import Mathlib

/-!
Shallow embedding of the NVA repository (annotations.py, enhanced_form_generator.py,
streamlit_app.py, psvag_annotated.py) together with theorems settling the frozen
claims about it.

Conventions of the embedding:
* Python values that flow through the validation engine are modelled by `Value`
  (`None`, strings, `datetime.date` objects, numbers).  A `datetime.date` is
  encoded as the natural number `year*10000 + month*100 + day`; for valid dates
  this encoding is strictly monotone in the calendar order, so Python's date
  comparisons become `Nat` comparisons.
* Python dicts are modelled as association lists in insertion order;
  `dictGet?`/`dictInsert` implement dict lookup and `d[k] = v` assignment
  (assignment to an existing key keeps its position, as CPython dicts do).
* The ambient clock (`date.today()`, `datetime.now()`) is passed in as an
  explicit parameter wherever the source reads it.
* Exceptions swallowed by `try/except` blocks are modelled with `Option`:
  `Option.none` stands for "an exception was raised inside the `try` block".
-/

/-- A Python runtime value as it flows through `ValidationRuleImpl.validate`:
`None`, a string, a `datetime.date` (encoded `y*10000+m*100+d`), or a number. -/
inductive Value where
  | none
  | str (s : String)
  | date (code : Nat)
  | num (n : Int)
deriving DecidableEq, Repr

/-- Python truthiness (`bool(v)`) for the values of `Value`: `None`, `""` and `0`
are falsy, everything else (including every `date` object) is truthy. -/
def Value.truthy : Value → Bool
  | .none => false
  | .str s => s != ""
  | .date _ => true
  | .num n => n != 0

/-- Days in a month of the proleptic Gregorian calendar, as used by
`datetime.date` for validity checking. -/
def daysInMonth (y m : Nat) : Nat :=
  if m = 2 then (if y % 4 = 0 && (y % 100 != 0 || y % 400 = 0) then 29 else 28)
  else if m = 4 || m = 6 || m = 9 || m = 11 then 30
  else 31

/-- Python's `s.split('-')` on the character list of `s`. -/
def splitDashes (cs : List Char) : List (List Char) :=
  match cs with
  | [] => [[]]
  | c :: rest =>
    let r := splitDashes rest
    if c = '-' then [] :: r
    else
      match r with
      | [] => [[c]]
      | g :: gs => (c :: g) :: gs

/-- The numeric value of a list of decimal digit characters. -/
def digitsVal (cs : List Char) : Nat :=
  cs.foldl (fun n c => n * 10 + (c.toNat - 48)) 0

/-- `datetime.date.fromisoformat` on the canonical `YYYY-MM-DD` format: accepts
exactly a four-digit year, two-digit month and two-digit day separated by `-`,
with a calendar-valid month/day; returns the encoded date, `none` models the
`ValueError` raised otherwise. -/
def parseIsoDate (s : String) : Option Nat :=
  match splitDashes s.toList with
  | [ys, ms, ds] =>
    if ys.length = 4 && ms.length = 2 && ds.length = 2
        && ys.all Char.isDigit && ms.all Char.isDigit && ds.all Char.isDigit then
      let y := digitsVal ys
      let m := digitsVal ms
      let d := digitsVal ds
      if 1 ≤ y && 1 ≤ m && m ≤ 12 && 1 ≤ d && d ≤ daysInMonth y m then
        some (y * 10000 + m * 100 + d)
      else Option.none
    else Option.none
  | _ => Option.none

/-- The body of the `try` blocks in `ValidationRuleImpl.validate`:
`date.fromisoformat(value) if isinstance(value, str) else value`, followed by a
date comparison.  A string is parsed (`none` = `ValueError`); a date object
passes through; any other value reaches the comparison and raises `TypeError`
there, so it is `none` as well. -/
def toDateOpt : Value → Option Nat
  | .str s => parseIsoDate s
  | .date code => some code
  | _ => Option.none

/-- `float(value)` as used by the `positive` rule: numbers coerce to themselves,
numeric strings parse, everything else raises (= `none`).  Fractional string
literals do not occur in this repository, so numeric strings are modelled by
integer literals. -/
def toFloatOpt : Value → Option Int
  | .num n => some n
  | .str s => s.toInt?
  | _ => Option.none

/-- Lookup in a Python dict modelled as an association list (`d.get(k)` /
`k in d` / `d[k]`). -/
def dictGet? {α β : Type} [DecidableEq α] (l : List (α × β)) (k : α) : Option β :=
  match l with
  | [] => Option.none
  | (k', v) :: rest => if k' = k then some v else dictGet? rest k

/-- Python dict assignment `d[k] = v`: overwrites the (first, hence unique)
binding of `k` in place, otherwise appends a new binding at the end —
exactly CPython's insertion-order semantics. -/
def dictInsert {α β : Type} [DecidableEq α] (k : α) (v : β) : List (α × β) → List (α × β)
  | [] => [(k, v)]
  | (k', v') :: rest => if k' = k then (k, v) :: rest else (k', v') :: dictInsert k v rest

/-- `k in d` for a Python dict. -/
def dictContains {α β : Type} [DecidableEq α] (l : List (α × β)) (k : α) : Bool :=
  (dictGet? l k).isSome

namespace ValidationRuleImpl

/-- `ValidationRuleImpl.validate(rule, value, context)` from annotations.py.
`today` is the explicit parameter standing for `date.today()`.  Returns the
`(is_valid, error_message)` pair of the source. -/
def validate (today : Nat) (rule : String) (value : Value)
    (context : List (String × Value)) : Bool × String :=
  if rule = "required" then
    let valid : Bool := value != Value.none && value != Value.str ""
    (valid, if valid then "" else "Dieses Feld ist erforderlich")
  else if rule = "date_in_past" then
    if value.truthy = false then (true, "")
    else
      match toDateOpt value with
      | some d =>
        let valid : Bool := decide (d < today)
        (valid, if valid then "" else "Datum muss in der Vergangenheit liegen")
      | Option.none => (false, "Ungültiges Datum")
  else if rule = "date_after_eintrittsdatum" then
    if value.truthy = false || !(dictContains context "eintrittsdatum") then (true, "")
    else
      match toDateOpt value, toDateOpt ((dictGet? context "eintrittsdatum").getD Value.none) with
      | some d, some eintritt =>
        let valid : Bool := decide (eintritt ≤ d)
        (valid, if valid then "" else "Austrittsdatum muss nach Eintrittsdatum liegen")
      | _, _ => (false, "Ungültiges Datum")
  else if rule = "positive" then
    match toFloatOpt value with
    | some n =>
      let valid : Bool := decide (0 < n)
      (valid, if valid then "" else "Wert muss positiv sein")
    | Option.none => (false, "Ungültige Zahl")
  else
    (true, "")

end ValidationRuleImpl

/-!
## Confirmation quorum (streamlit_app.py, confirm-button block)

Session state: `st.session_state.formel_bestaetigung` maps a calculated-field
key to its global confirmation counter; `st.session_state.ma_bestaetigt` maps a
subject identity (the `ma_id` string built from the case's dates) to a dict
from field key to a contributed flag.
-/

/-- The quorum-relevant slice of `st.session_state`. -/
structure QState where
  formel_bestaetigung : List (String × Nat)
  ma_bestaetigt : List (String × List (String × Bool))
deriving DecidableEq, Repr

/-- The initial session state (both dicts empty). -/
def QState.empty : QState := ⟨[], []⟩

/-- `st.session_state.formel_bestaetigung.get(key, 0)`. -/
def QState.getCount (st : QState) (key : String) : Nat :=
  (dictGet? st.formel_bestaetigung key).getD 0

/-- `st.session_state.ma_bestaetigt.get(ma_id, {}).get(key, False)`. -/
def QState.contributed (st : QState) (ma_id key : String) : Bool :=
  (dictGet? ((dictGet? st.ma_bestaetigt ma_id).getD []) key).getD false

/-- One pass of the confirmation block of streamlit_app.py for one calculated
field: if `bestaetigt >= threshold` the field shows as verified and no button is
rendered; otherwise, if the field needs confirmation, the subject has not yet
contributed and the counter is below the threshold, pressing the button
increments the field's counter and sets the subject's flag; in every other case
the state is unchanged. -/
def confirm (threshold : Nat) (needs_confirmation : Bool) (ma_id key : String)
    (st : QState) : QState :=
  let bestaetigt := st.getCount key
  if threshold ≤ bestaetigt then st
  else if needs_confirmation then
    let ma_geprueft := st.contributed ma_id key
    if !ma_geprueft && bestaetigt < threshold then
      { formel_bestaetigung := dictInsert key (bestaetigt + 1) st.formel_bestaetigung,
        ma_bestaetigt :=
          dictInsert ma_id
            (dictInsert key true ((dictGet? st.ma_bestaetigt ma_id).getD []))
            st.ma_bestaetigt }
    else st
  else st

/-- One confirm attempt: the field's threshold and needs-confirmation flag
(from its calculated-field metadata), the subject identity and the field key. -/
structure ConfirmOp where
  threshold : Nat
  needs_confirmation : Bool
  ma_id : String
  key : String
deriving DecidableEq, Repr

/-- Run a sequence of confirm attempts against a session state. -/
def runConfirm (ops : List ConfirmOp) (st : QState) : QState :=
  ops.foldl (fun s o => confirm o.threshold o.needs_confirmation o.ma_id o.key s) st

/-!
## Metadata registries (annotations.py)
-/

/-- The metadata dict built by the `calculated_field` decorator and stored in
`CalculatedFieldRegistry`.  The compute callable itself is represented by its
name (`function_name`), as the core never inspects its body. -/
structure CalcMeta where
  key : String
  label : String
  formel : String
  requires : List String
  einheit : String
  editable : Bool
  needs_confirmation : Bool
  confirmation_threshold : Nat
  group : String
  hint : Option String
  precision : Nat
  function_name : String
deriving DecidableEq, Repr

/-- The state of the global `CalculatedFieldRegistry._fields` dict. -/
def CalcRegistry : Type := List (String × CalcMeta)

namespace CalculatedFieldRegistry

/-- `CalculatedFieldRegistry.register`: `cls._fields[metadata['key']] = metadata`. -/
def register (reg : CalcRegistry) (metadata : CalcMeta) : CalcRegistry :=
  dictInsert metadata.key metadata reg

/-- `CalculatedFieldRegistry.get_all`: returns the dict itself. -/
def get_all (reg : CalcRegistry) : List (String × CalcMeta) := reg

/-- `CalculatedFieldRegistry.get`: `cls._fields.get(key)`. -/
def get (reg : CalcRegistry) (key : String) : Option CalcMeta :=
  dictGet? reg key

end CalculatedFieldRegistry

/-- A workflow-step dict as built by the `workflow_step` decorator.  The
`show_if` callable and the decorated class are represented by their names
(`show_if` holds `func.__name__`, which is all the schema ever reads). -/
structure Step where
  order : Int
  title : String
  description : Option String
  groups : List String
  show_if : Option String
  component_type : String
  class_name : String
deriving DecidableEq, Repr

/-- The sort key relation of `cls._steps.sort(key=lambda x: x['order'])`. -/
def stepLe (a b : Step) : Prop := a.order ≤ b.order

instance : DecidableRel stepLe := fun a b => inferInstanceAs (Decidable (a.order ≤ b.order))

instance : IsTotal Step stepLe := ⟨fun a b => Int.le_total a.order b.order⟩

instance : IsTrans Step stepLe := ⟨fun _ _ _ h h' => le_trans h h'⟩

namespace WorkflowStepRegistry

/-- `WorkflowStepRegistry.register`: `cls._steps.append(step_def)` followed by
`cls._steps.sort(key=lambda x: x['order'])`.  Python's `list.sort` is a stable
sort, embedded here by the stable `List.insertionSort`. -/
def register (steps : List Step) (step_def : Step) : List Step :=
  List.insertionSort stepLe (steps ++ [step_def])

/-- The registry contents after a whole sequence of registrations, starting
from the empty registry. -/
def runRegister (regs : List Step) : List Step :=
  regs.foldl register []

end WorkflowStepRegistry

/-!
## UI field metadata (annotations.py, `ui_field`) and field introspection
(enhanced_form_generator.py)
-/

/-- The metadata dict produced by `ui_field`; `none` means the key is absent
from the dict. -/
structure UiMeta where
  ui_label : Option String
  ui_type : Option String
  ui_required : Option Bool
  ui_hint : Option String
  ui_placeholder : Option String
  ui_group : Option String
  ui_order : Option Int
  ui_validation : Option (List String)
  ui_min : Option Int
  ui_max : Option Int
  ui_depends_on : Option String
  ui_show_when : Option String
  ui_options : Option (List (String × String))
  ui_width : Option String
  ui_class : Option String
deriving DecidableEq, Repr

/-- The empty metadata dict (a dataclass field declared without `ui_field`). -/
def emptyUiMeta : UiMeta :=
  ⟨Option.none, Option.none, Option.none, Option.none, Option.none, Option.none,
   Option.none, Option.none, Option.none, Option.none, Option.none, Option.none,
   Option.none, Option.none, Option.none⟩

/-- `ui_field(...)` from annotations.py: stores exactly the arguments that are
not `None` under their `ui_*` keys.  The Python defaults `group="default"`,
`order=0`, `width="full"` mean callers that omit those arguments still get them
stored; callers of this model pass the defaulted value explicitly.  A single
validation rule name is wrapped into a one-element list by the source, so the
model takes the already-normalized list. -/
def ui_field (label typ : Option String) (required : Option Bool)
    (hint placeholder : Option String) (group : Option String) (order : Option Int)
    (validation : Option (List String)) (min_value max_value : Option Int)
    (depends_on show_when : Option String) (options : Option (List (String × String)))
    (width css_class : Option String) : UiMeta :=
  ⟨label, typ, required, hint, placeholder, group, order, validation,
   min_value, max_value, depends_on, show_when, options, width, css_class⟩

/-- A declared Python attribute type as seen by `get_type_hints`:
the base types of the fixed mapping table, `Optional[t]` (= `Union[t, None]`,
the only union shape occurring in this repository's record types), or any
other, unmapped type. -/
inductive PyType where
  | str
  | int
  | float
  | bool
  | date
  | optional (t : PyType)
  | other
deriving DecidableEq, Repr

/-- One dataclass field: name, declared type, and its `ui_field` metadata
(`emptyUiMeta` when the field carries no metadata). -/
structure RtField where
  name : String
  typ : PyType
  metadata : UiMeta
deriving DecidableEq, Repr

/-- A record-type descriptor: the input dataclass with its name, docstring and
declared fields in declaration order. -/
structure RecordType where
  className : String
  doc : Option String
  fields : List RtField
deriving DecidableEq, Repr

/-- One entry of the `fields_list` built by `extract_input_fields`; `none`
models a key removed by the `Cleanup None values` comprehension. -/
structure FieldDef where
  id : String
  field_type : String
  label : String
  typ : String
  required : Bool
  hint : Option String
  placeholder : Option String
  group : String
  order : Int
  validation : List String
  min_value : Option Int
  max_value : Option Int
  depends_on : Option String
  show_when : Option String
  options : Option (List (String × String))
  width : String
  css_class : Option String
deriving DecidableEq, Repr

namespace EnhancedFormGenerator

/-- `_infer_ui_type`: unwrap `Optional[X]` to its first non-`None` argument,
then apply the fixed `type_map`, defaulting to `'text'`. -/
def _infer_ui_type (python_type : PyType) : String :=
  let unwrapped := match python_type with
    | .optional t => t
    | t => t
  match unwrapped with
  | .str => "text"
  | .int => "number"
  | .float => "number"
  | .bool => "checkbox"
  | .date => "date"
  | _ => "text"

/-- One character step of Python's `str.title()`: a cased character is
uppercased after a non-cased character and lowercased otherwise. -/
def titleChar (prevAlpha : Bool) (c : Char) : Char :=
  if c.isAlpha then (if prevAlpha then c.toLower else c.toUpper) else c

/-- Python's `str.title()` restricted to the ASCII identifiers occurring as
field names. -/
def pythonTitle (s : String) : String :=
  (s.toList.foldl
    (fun (acc : List Char × Bool) c => (acc.1 ++ [titleChar acc.2 c], c.isAlpha))
    ([], false)).1.asString

/-- `_infer_label`: `field_name.replace('_', ' ').title()`. -/
def _infer_label (field_name : String) : String :=
  pythonTitle ((field_name.toList.map (fun c => if c = '_' then ' ' else c)).asString)

/-- `_is_required`: a field is required unless its type hint is a union
containing `None` (i.e. `Optional[...]`). -/
def _is_required (field_type : PyType) : Bool :=
  match field_type with
  | .optional _ => false
  | _ => true

/-- Python's `x or y` for the string-valued metadata lookups in
`extract_input_fields` (`metadata.get(k) or inferred`): an absent key or an
empty string falls back to the inferred value. -/
def orElseStr (o : Option String) (dflt : String) : String :=
  match o with
  | some s => if s = "" then dflt else s
  | Option.none => dflt

/-- The `field_def` dict built for one dataclass field inside
`extract_input_fields`, including the `Cleanup None values` step (absent keys
are `none`) and the guarantee that `validation` is a list. -/
def buildFieldDef (f : RtField) : FieldDef :=
  let metadata := f.metadata
  { id := f.name
    field_type := "input"
    label := orElseStr metadata.ui_label (_infer_label f.name)
    typ := orElseStr metadata.ui_type (_infer_ui_type f.typ)
    required := metadata.ui_required.getD (_is_required f.typ)
    hint := metadata.ui_hint
    placeholder := metadata.ui_placeholder
    group := metadata.ui_group.getD "default"
    order := metadata.ui_order.getD 0
    validation := metadata.ui_validation.getD []
    min_value := metadata.ui_min
    max_value := metadata.ui_max
    depends_on := metadata.ui_depends_on
    show_when := metadata.ui_show_when
    options := metadata.ui_options
    width := metadata.ui_width.getD "full"
    css_class := metadata.ui_class }

/-- The sort key of `fields_list.sort(key=lambda f: (f['group'], f.get('order', 0)))`:
lexicographic comparison of the `(group, order)` tuples, exactly Python's tuple
order with strings compared pointwise by code points. -/
def fieldLe (a b : FieldDef) : Prop :=
  a.group < b.group ∨ (a.group = b.group ∧ a.order ≤ b.order)

instance : DecidableRel fieldLe := fun a b =>
  inferInstanceAs (Decidable (a.group < b.group ∨ (a.group = b.group ∧ a.order ≤ b.order)))

instance : IsTotal FieldDef fieldLe :=
  ⟨fun a b => by
    rcases lt_trichotomy a.group b.group with h | h | h
    · exact Or.inl (Or.inl h)
    · rcases Int.le_total a.order b.order with h' | h'
      · exact Or.inl (Or.inr ⟨h, h'⟩)
      · exact Or.inr (Or.inr ⟨h.symm, h'⟩)
    · exact Or.inr (Or.inl h)⟩

instance : IsTrans FieldDef fieldLe :=
  ⟨fun a b c hab hbc => by
    rcases hab with h | ⟨he, ho⟩
    · rcases hbc with h' | ⟨he', _⟩
      · exact Or.inl (lt_trans h h')
      · exact Or.inl (he' ▸ h)
    · rcases hbc with h' | ⟨he', ho'⟩
      · exact Or.inl (he ▸ h')
      · exact Or.inr ⟨he.trans he', le_trans ho ho'⟩⟩

/-- `extract_input_fields`: build a `field_def` per dataclass field in
declaration order, then stable-sort by `(group, order)`. -/
def extract_input_fields (rt : RecordType) : List FieldDef :=
  List.insertionSort fieldLe (rt.fields.map buildFieldDef)

end EnhancedFormGenerator

/-!
## Schema assembly (enhanced_form_generator.py, `generate_complete_schema`)
-/

/-- Zero-pad a natural number to `w` digits. -/
def padNum (w n : Nat) : String :=
  let s := toString n
  String.mk (List.replicate (w - s.length) '0') ++ s

/-- `date.isoformat()` on an encoded date. -/
def isoOfCode (code : Nat) : String :=
  padNum 4 (code / 10000) ++ "-" ++ padNum 2 (code / 100 % 100) ++ "-" ++ padNum 2 (code % 100)

/-- The per-entry conversion of the config dict comprehension:
`v.isoformat() if isinstance(v, date) else v`. -/
def configValue : Value → Value
  | .date code => .str (isoOfCode code)
  | v => v

/-- One entry of the `calculated_fields` list of the schema, projected from a
registry entry by `extract_calculated_fields`. -/
structure CalcFieldOut where
  id : String
  field_type : String
  label : String
  formel : String
  requires : List String
  einheit : String
  editable : Bool
  needs_confirmation : Bool
  confirmation_threshold : Nat
  group : String
  hint : Option String
  precision : Nat
  function_name : String
deriving DecidableEq, Repr

/-- One entry of the workflow section: the step with `show_if` reduced to the
callable's name (`step_def['show_if'].__name__ if step_def.get('show_if') else None`). -/
structure StepOut where
  order : Int
  title : String
  description : Option String
  groups : List String
  component_type : String
  show_if : Option String
deriving DecidableEq, Repr

/-- The `meta` section of the schema; `generated_at` is `datetime.now().isoformat()`. -/
structure SchemaMeta where
  title : String
  class_name : String
  generated_at : String
deriving DecidableEq, Repr

/-- The complete schema dict returned by `generate_complete_schema`. -/
structure Schema where
  meta : SchemaMeta
  config : List (String × Value)
  input_fields : List FieldDef
  calculated_fields : List CalcFieldOut
  all_fields : List (Sum FieldDef CalcFieldOut)
  groups : List (String × List FieldDef)
  workflow : List StepOut
  validation_rules : List String × List (String × String)
deriving DecidableEq, Repr

namespace EnhancedFormGenerator

/-- `extract_calculated_fields`: project every registry entry, in dict
(insertion) order, into its schema representation. -/
def extract_calculated_fields (reg : CalcRegistry) : List CalcFieldOut :=
  (CalculatedFieldRegistry.get_all reg).map (fun p =>
    { id := p.1
      field_type := "calculated"
      label := p.2.label
      formel := p.2.formel
      requires := p.2.requires
      einheit := p.2.einheit
      editable := p.2.editable
      needs_confirmation := p.2.needs_confirmation
      confirmation_threshold := p.2.confirmation_threshold
      group := p.2.group
      hint := p.2.hint
      precision := p.2.precision
      function_name := p.2.function_name })

/-- `extract_workflow`: project the sorted step list. -/
def extract_workflow (steps : List Step) : List StepOut :=
  steps.map (fun s =>
    { order := s.order
      title := s.title
      description := s.description
      groups := s.groups
      component_type := s.component_type
      show_if := s.show_if })

/-- Append an element to a deduplicating accumulator (the model of inserting
into the Python `set` combined with the final `list(rules)`; the set's
iteration order is implementation-defined in Python, the model fixes it to
first-appearance order). -/
def dedupAppend (seen : List String) (r : String) : List String :=
  if seen.contains r then seen else seen ++ [r]

/-- `_extract_validation_rules`: the deduplicated rule names referenced by the
input fields, each paired with its `ValidationRule.<name>` reference. -/
def _extract_validation_rules (fields_list : List FieldDef) :
    List String × List (String × String) :=
  let rules := fields_list.foldl (fun acc f => f.validation.foldl dedupAppend acc) []
  (rules, rules.map (fun r => (r, "ValidationRule." ++ r)))

/-- Append a field to its group, creating the group at the end on first
appearance — the grouping loop of `generate_complete_schema` over a dict. -/
def addToGroup : List (String × List FieldDef) → FieldDef → List (String × List FieldDef)
  | [], f => [(f.group, [f])]
  | (g, l) :: rest, f =>
    if g = f.group then (g, l ++ [f]) :: rest else (g, l) :: addToGroup rest f

/-- Partition the sorted input fields by `group`, groups in first-appearance
order. -/
def groupFields (fields_list : List FieldDef) : List (String × List FieldDef) :=
  fields_list.foldl addToGroup []

/-- `generate_complete_schema`.  `now` is the explicit parameter standing for
`datetime.now().isoformat()`; `cfg` is `self.config.__dict__` (or `none` when
no config object was supplied); `creg` and `wreg` are the contents of the two
global registries at call time. -/
def generate_complete_schema (now : String) (rt : RecordType)
    (cfg : Option (List (String × Value))) (creg : CalcRegistry)
    (wreg : List Step) : Schema :=
  let input_fields := extract_input_fields rt
  let calc_fields := extract_calculated_fields creg
  let workflow := extract_workflow wreg
  { meta :=
      { title := orElseStr rt.doc rt.className
        class_name := rt.className
        generated_at := now }
    config := (cfg.getD []).map (fun p => (p.1, configValue p.2))
    input_fields := input_fields
    calculated_fields := calc_fields
    all_fields := input_fields.map Sum.inl ++ calc_fields.map Sum.inr
    groups := groupFields input_fields
    workflow := workflow
    validation_rules := _extract_validation_rules input_fields }

end EnhancedFormGenerator

/-!
## Derived characterization of append-then-stable-sort (used for C6)

`register` appends the new step to an already sorted list and stable-sorts.
On a sorted list this is the same as inserting the new element after every
element whose key is `≤` its own (`insEnd`), which is the form the stability
arguments are carried out on.  To talk about "registration sequence" the run is
replayed on index-tagged steps (`List.enum`), sorted by the same key.
-/

/-- Insert `x` behind every element `b` with `r b x` (i.e. at the end of its
run of equal keys). -/
def insEnd {α : Type} (r : α → α → Prop) [DecidableRel r] (x : α) : List α → List α
  | [] => [x]
  | b :: l => if r b x then b :: insEnd r x l else x :: b :: l

/-- The step-sort key relation lifted to index-tagged steps (the tag is the
registration index and is ignored by the sort, exactly as in the source). -/
def tstepLe (a b : Nat × Step) : Prop := a.2.order ≤ b.2.order

instance : DecidableRel tstepLe := fun a b => inferInstanceAs (Decidable (a.2.order ≤ b.2.order))

instance : IsTotal (Nat × Step) tstepLe := ⟨fun a b => Int.le_total a.2.order b.2.order⟩

instance : IsTrans (Nat × Step) tstepLe := ⟨fun _ _ _ h h' => le_trans h h'⟩

/-- `WorkflowStepRegistry.register` replayed on index-tagged steps. -/
def registerT (steps : List (Nat × Step)) (p : Nat × Step) : List (Nat × Step) :=
  List.insertionSort tstepLe (steps ++ [p])

/-- A whole registration sequence replayed on index-tagged steps. -/
def runRegisterT (regs : List (Nat × Step)) : List (Nat × Step) :=
  regs.foldl registerT []

/-- Strict lexicographic order on (step order, registration index): the
formalization of "sorted by `order` ascending, ties in registration sequence". -/
def stepLex (a b : Nat × Step) : Prop :=
  a.2.order < b.2.order ∨ (a.2.order = b.2.order ∧ a.1 < b.1)

/-!
## Concrete demonstration values (used by witnesses and counterexamples)
-/

/-- Workflow step with order 2, registered first in the `[2, 1, 1]` scenario. -/
def demoStepA : Step := ⟨2, "Schritt A", Option.none, [], Option.none, "form", "StepA"⟩

/-- First workflow step with order 1 in the `[2, 1, 1]` scenario. -/
def demoStepB : Step := ⟨1, "Schritt B", Option.none, [], Option.none, "form", "StepB"⟩

/-- Second workflow step with order 1 in the `[2, 1, 1]` scenario. -/
def demoStepC : Step := ⟨1, "Schritt C", Option.none, [], Option.none, "summary", "StepC"⟩

/-- A calculated-field registration under key `"x"` with label `"Erste"`. -/
def demoCalc1 : CalcMeta :=
  ⟨"x", "Erste", "a + b", ["a", "b"], "Jahre", true, true, 3, "berechnungen",
   Option.none, 2, "f1"⟩

/-- A second registration under the same key `"x"` with label `"Zweite"`. -/
def demoCalc2 : CalcMeta :=
  ⟨"x", "Zweite", "a - b", ["a", "b"], "Jahre", false, true, 3, "berechnungen",
   Option.none, 2, "f2"⟩

/-- A session state in which subject `"a"` has already contributed to `"k"`. -/
def demoQState : QState := ⟨[("k", 1)], [("a", [("k", true)])]⟩

/-- A demonstration sequence of confirm attempts. -/
def demoOps : List ConfirmOp :=
  [⟨3, true, "b", "k"⟩, ⟨3, true, "a", "k"⟩, ⟨3, true, "c", "k"⟩]

/-!
## Helper lemmas
-/

theorem dictGet?_dictInsert_self {α β : Type} [DecidableEq α] (k : α) (v : β)
    (l : List (α × β)) : dictGet? (dictInsert k v l) k = some v := by
  induction l with
  | nil => simp [dictInsert, dictGet?]
  | cons p rest ih =>
    obtain ⟨k', v'⟩ := p
    by_cases h : k' = k
    · simp [dictInsert, dictGet?, h]
    · simp [dictInsert, dictGet?, h, ih]

theorem dictGet?_dictInsert_ne {α β : Type} [DecidableEq α] {k k' : α} (v : β)
    (l : List (α × β)) (h : k' ≠ k) : dictGet? (dictInsert k v l) k' = dictGet? l k' := by
  induction l with
  | nil => simp [dictInsert, dictGet?, Ne.symm h]
  | cons p rest ih =>
    obtain ⟨k'', v''⟩ := p
    by_cases h2 : k'' = k
    · subst h2
      simp [dictInsert, dictGet?, Ne.symm h]
    · by_cases h3 : k'' = k'
      · simp [dictInsert, dictGet?, h2, h3, h]
      · simp [dictInsert, dictGet?, h2, h3, ih]

theorem mem_keys_dictInsert {α β : Type} [DecidableEq α] {a k : α} (v : β)
    (l : List (α × β)) (h : a ∈ (dictInsert k v l).map Prod.fst) :
    a = k ∨ a ∈ l.map Prod.fst := by
  induction l with
  | nil => simpa [dictInsert] using h
  | cons p rest ih =>
    obtain ⟨k', v'⟩ := p
    by_cases h2 : k' = k
    · subst h2
      rcases (by simpa [dictInsert] using h : a = k' ∨ a ∈ rest.map Prod.fst) with h3 | h3
      · exact Or.inl h3
      · exact Or.inr (by simp [h3])
    · rcases (by simpa [dictInsert, h2] using h : a = k' ∨ a ∈ (dictInsert k v rest).map Prod.fst)
        with h3 | h3
      · exact Or.inr (by simp [h3])
      · rcases ih h3 with h4 | h4
        · exact Or.inl h4
        · exact Or.inr (by simp [h4])

theorem keys_nodup_dictInsert {α β : Type} [DecidableEq α] (k : α) (v : β)
    (l : List (α × β)) (h : (l.map Prod.fst).Nodup) :
    ((dictInsert k v l).map Prod.fst).Nodup := by
  induction l with
  | nil => simp [dictInsert]
  | cons p rest ih =>
    obtain ⟨k', v'⟩ := p
    rw [List.map_cons, List.nodup_cons] at h
    by_cases h2 : k' = k
    · subst h2
      simpa [dictInsert, List.nodup_cons] using h
    · rw [show dictInsert k v ((k', v') :: rest) = (k', v') :: dictInsert k v rest by
        simp [dictInsert, h2]]
      rw [List.map_cons, List.nodup_cons]
      refine ⟨fun hmem => ?_, ih h.2⟩
      rcases mem_keys_dictInsert v rest hmem with h3 | h3
      · exact h2 h3
      · exact h.1 h3

theorem filter_dictInsert_key {β : Type} (k : String) (v : β) (l : List (String × β))
    (h : (l.map Prod.fst).Nodup) :
    (dictInsert k v l).filter (fun p => p.1 == k) = [(k, v)] := by
  induction l with
  | nil => simp [dictInsert]
  | cons p rest ih =>
    obtain ⟨k', v'⟩ := p
    rw [List.map_cons, List.nodup_cons] at h
    by_cases h2 : k' = k
    · subst h2
      have hnil : rest.filter (fun p => p.1 == k') = [] := by
        rw [List.filter_eq_nil_iff]
        intro p hp hpk
        exact h.1 (List.mem_map.mpr ⟨p, hp, by simpa using hpk⟩)
      simp [dictInsert, List.filter, hnil]
    · rw [show dictInsert k v ((k', v') :: rest) = (k', v') :: dictInsert k v rest by
        simp [dictInsert, h2]]
      rw [List.filter_cons]
      simp only [show ((k', v').1 == k) = false by simpa using h2]
      exact ih h.2

theorem getCount_confirm_le (th : Nat) (nc : Bool) (subj fld f : String) (st : QState) :
    st.getCount f ≤ (confirm th nc subj fld st).getCount f := by
  unfold confirm
  by_cases h1 : th ≤ st.getCount fld
  · simp [h1]
  · simp only [h1, if_false]
    by_cases h2 : nc
    · simp only [h2, if_true]
      by_cases h3 : !st.contributed subj fld && st.getCount fld < th
      · simp only [h3, if_true]
        by_cases h4 : f = fld
        · subst h4
          simp [QState.getCount, dictGet?_dictInsert_self]
        · simp [QState.getCount, dictGet?_dictInsert_ne _ _ h4]
      · simp [h3]
    · simp [h2]

theorem contributed_confirm_mono (th : Nat) (nc : Bool) (subj fld a b : String)
    (st : QState) (h : st.contributed a b = true) :
    (confirm th nc subj fld st).contributed a b = true := by
  unfold confirm
  by_cases h1 : th ≤ st.getCount fld
  · simp [h1, h]
  · simp only [h1, if_false]
    by_cases h2 : nc
    · simp only [h2, if_true]
      by_cases h3 : !st.contributed subj fld && st.getCount fld < th
      · simp only [h3, if_true]
        by_cases h4 : a = subj
        · subst h4
          by_cases h5 : b = fld
          · subst h5
            simp [QState.contributed, dictGet?_dictInsert_self]
          · simp only [QState.contributed, dictGet?_dictInsert_self, Option.getD_some]
            rw [dictGet?_dictInsert_ne _ _ h5]
            exact h
        · simp only [QState.contributed]
          rw [dictGet?_dictInsert_ne _ _ h4]
          exact h
      · simp [h3, h]
    · simp [h2, h]

theorem confirm_of_contributed (th : Nat) (nc : Bool) (subj fld : String) (st : QState)
    (h : st.contributed subj fld = true) : confirm th nc subj fld st = st := by
  unfold confirm
  by_cases h1 : th ≤ st.getCount fld
  · simp [h1]
  · simp [h1, h]

theorem getCount_runConfirm_le (ops : List ConfirmOp) (st : QState) (f : String) :
    st.getCount f ≤ (runConfirm ops st).getCount f := by
  induction ops generalizing st with
  | nil => exact le_refl _
  | cons o rest ih =>
    calc st.getCount f
        ≤ (confirm o.threshold o.needs_confirmation o.ma_id o.key st).getCount f :=
          getCount_confirm_le _ _ _ _ _ _
      _ ≤ (runConfirm rest (confirm o.threshold o.needs_confirmation o.ma_id o.key st)).getCount f :=
          ih _
      _ = (runConfirm (o :: rest) st).getCount f := rfl

theorem contributed_runConfirm_mono (ops : List ConfirmOp) (st : QState) (a b : String)
    (h : st.contributed a b = true) : (runConfirm ops st).contributed a b = true := by
  induction ops generalizing st with
  | nil => exact h
  | cons o rest ih =>
    exact ih _ (contributed_confirm_mono _ _ _ _ _ _ _ h)

/-!
## Claim theorems
-/

/-- Claim C10: for every rule name outside the recognized set (`required`,
`date_in_past`, `date_after_eintrittsdatum`, `positive`) and every value and
context, `evaluate` returns `(true, "")` — unknown rule names are fail-open
and never block acceptance. -/
theorem unknown_rule_fail_open (today : Nat) (rule : String) (value : Value)
    (context : List (String × Value))
    (h1 : rule ≠ "required") (h2 : rule ≠ "date_in_past")
    (h3 : rule ≠ "date_after_eintrittsdatum") (h4 : rule ≠ "positive") :
    ValidationRuleImpl.validate today rule value context = (true, "") := by
  unfold ValidationRuleImpl.validate
  rw [if_neg h1, if_neg h2, if_neg h3, if_neg h4]

/-- Witness for C10: the rule name `"email"` (declared in the `ValidationRule`
enum but never implemented) evaluates as valid with an empty message. -/
theorem unknown_rule_fail_open_witness :
    ValidationRuleImpl.validate 20251012 "email" (Value.str "keine-email") [] = (true, "") :=
  unknown_rule_fail_open 20251012 "email" (Value.str "keine-email") []
    (by decide) (by decide) (by decide) (by decide)

/-- Claim C5: registering twice under the same key fully replaces the first
registration: afterwards `get` and `get_all` hold exactly the second
registration's metadata for that key (and registration never raises — it is a
total function here).  The `Nodup` hypothesis is the dict invariant that every
key occurs at most once. -/
theorem calc_register_last_wins (reg : CalcRegistry) (m1 m2 : CalcMeta)
    (hnd : (reg.map Prod.fst).Nodup) (hk : m2.key = m1.key) :
    CalculatedFieldRegistry.get
        (CalculatedFieldRegistry.register (CalculatedFieldRegistry.register reg m1) m2) m1.key
      = some m2
    ∧ (CalculatedFieldRegistry.get_all
        (CalculatedFieldRegistry.register (CalculatedFieldRegistry.register reg m1) m2)).filter
        (fun p => p.1 == m1.key) = [(m1.key, m2)] := by
  constructor
  · unfold CalculatedFieldRegistry.get CalculatedFieldRegistry.register
    rw [hk]
    exact dictGet?_dictInsert_self _ _ _
  · unfold CalculatedFieldRegistry.get_all CalculatedFieldRegistry.register
    rw [hk]
    exact filter_dictInsert_key m1.key m2 _ (keys_nodup_dictInsert m1.key m1 reg hnd)

/-- Witness for C5: key `"x"` registered with label `"Erste"` and then with
label `"Zweite"` into the empty registry leaves only the second metadata. -/
theorem calc_register_last_wins_witness :
    CalculatedFieldRegistry.get
        (CalculatedFieldRegistry.register (CalculatedFieldRegistry.register [] demoCalc1) demoCalc2) "x"
      = some demoCalc2
    ∧ (CalculatedFieldRegistry.get_all
        (CalculatedFieldRegistry.register (CalculatedFieldRegistry.register [] demoCalc1) demoCalc2)).filter
        (fun p => p.1 == "x") = [("x", demoCalc2)] :=
  calc_register_last_wins [] demoCalc1 demoCalc2 (by simp) rfl

/-- Claim C7: a record-type attribute declared `Optional[date]` with no
explicit metadata yields a field definition with `uiType "date"` (the optional
wrapper is unwrapped before the fixed mapping), `required = false`, and the
label inferred by `_infer_label` (the attribute name with `_` replaced by
spaces and title-cased); all other attributes take their defaults. -/
theorem optional_date_field_inference (c : String) (dc : Option String) (name : String) :
    EnhancedFormGenerator.extract_input_fields
        ⟨c, dc, [⟨name, PyType.optional PyType.date, emptyUiMeta⟩]⟩
      = [{ id := name, field_type := "input", label := EnhancedFormGenerator._infer_label name,
           typ := "date", required := false, hint := Option.none, placeholder := Option.none,
           group := "default", order := 0, validation := [], min_value := Option.none,
           max_value := Option.none, depends_on := Option.none, show_when := Option.none,
           options := Option.none, width := "full", css_class := Option.none }] := rfl

/-- Counterexample for C9 as stated: the label `""` is explicitly supplied
per-field metadata, yet the extracted field definition's label is the inferred
`"Name"`, not the explicit `""` — because the source uses Python's truthiness
`or` (`metadata.get('ui_label') or self._infer_label(...)`) for the label. -/
theorem explicit_label_counterexample :
    (EnhancedFormGenerator.buildFieldDef
        ⟨"name", PyType.str, { emptyUiMeta with ui_label := some "" }⟩).label = "Name"
    ∧ ({ emptyUiMeta with ui_label := some "" } : UiMeta).ui_label = some ""
    ∧ ("Name" : String) ≠ "" := by
  exact ⟨rfl, rfl, by decide⟩

/-- Claim C9, amended: an explicitly supplied NON-EMPTY label (and uiType)
overrides the inferred default; `label`/`uiType` fall back on truthiness, so an
explicit empty string falls back to the inferred value; every other metadata
attribute overrides by presence (an explicit `false`, `0`, `[]` or `""` wins),
and absence falls back to the inferred/default value. -/
theorem explicit_metadata_override (f : RtField) :
    (∀ s, f.metadata.ui_label = some s → s ≠ "" →
      (EnhancedFormGenerator.buildFieldDef f).label = s)
    ∧ (∀ s, f.metadata.ui_type = some s → s ≠ "" →
      (EnhancedFormGenerator.buildFieldDef f).typ = s)
    ∧ (∀ b, f.metadata.ui_required = some b → (EnhancedFormGenerator.buildFieldDef f).required = b)
    ∧ (∀ g, f.metadata.ui_group = some g → (EnhancedFormGenerator.buildFieldDef f).group = g)
    ∧ (∀ o, f.metadata.ui_order = some o → (EnhancedFormGenerator.buildFieldDef f).order = o)
    ∧ (∀ v, f.metadata.ui_validation = some v →
      (EnhancedFormGenerator.buildFieldDef f).validation = v)
    ∧ (∀ w, f.metadata.ui_width = some w → (EnhancedFormGenerator.buildFieldDef f).width = w)
    ∧ ((EnhancedFormGenerator.buildFieldDef f).hint = f.metadata.ui_hint)
    ∧ (f.metadata.ui_label = Option.none →
      (EnhancedFormGenerator.buildFieldDef f).label = EnhancedFormGenerator._infer_label f.name)
    ∧ (f.metadata.ui_type = Option.none →
      (EnhancedFormGenerator.buildFieldDef f).typ = EnhancedFormGenerator._infer_ui_type f.typ)
    ∧ (f.metadata.ui_required = Option.none →
      (EnhancedFormGenerator.buildFieldDef f).required = EnhancedFormGenerator._is_required f.typ)
    ∧ (f.metadata.ui_group = Option.none →
      (EnhancedFormGenerator.buildFieldDef f).group = "default") := by
  refine ⟨?_, ?_, ?_, ?_, ?_, ?_, ?_, rfl, ?_, ?_, ?_, ?_⟩
  · intro s hs hne
    simp [EnhancedFormGenerator.buildFieldDef, EnhancedFormGenerator.orElseStr, hs, hne]
  · intro s hs hne
    simp [EnhancedFormGenerator.buildFieldDef, EnhancedFormGenerator.orElseStr, hs, hne]
  · intro b hb
    simp [EnhancedFormGenerator.buildFieldDef, hb]
  · intro g hg
    simp [EnhancedFormGenerator.buildFieldDef, hg]
  · intro o ho
    simp [EnhancedFormGenerator.buildFieldDef, ho]
  · intro v hv
    simp [EnhancedFormGenerator.buildFieldDef, hv]
  · intro w hw
    simp [EnhancedFormGenerator.buildFieldDef, hw]
  · intro h
    simp [EnhancedFormGenerator.buildFieldDef, EnhancedFormGenerator.orElseStr, h]
  · intro h
    simp [EnhancedFormGenerator.buildFieldDef, EnhancedFormGenerator.orElseStr, h]
  · intro h
    simp [EnhancedFormGenerator.buildFieldDef, h]
  · intro h
    simp [EnhancedFormGenerator.buildFieldDef, h]

/-- Witness for C9 (amended): an explicit non-empty label and an explicit
`required=False` both override the inferred defaults. -/
theorem explicit_metadata_override_witness :
    (EnhancedFormGenerator.buildFieldDef
        ⟨"austrittsdatum", PyType.date,
         { emptyUiMeta with ui_label := some "Austrittsdatum (leer = aktiver Mitarbeiter)",
                            ui_required := some false }⟩).label
      = "Austrittsdatum (leer = aktiver Mitarbeiter)"
    ∧ (EnhancedFormGenerator.buildFieldDef
        ⟨"austrittsdatum", PyType.date,
         { emptyUiMeta with ui_label := some "Austrittsdatum (leer = aktiver Mitarbeiter)",
                            ui_required := some false }⟩).required = false := by
  constructor
  · exact (explicit_metadata_override _).1 _ rfl (by decide)
  · exact (explicit_metadata_override _).2.2.1 false rfl

/-- Counterexample for C8 as stated: the empty string does not parse as a
date, yet `date_in_past` returns `(true, "")` for it — the source guard
`if not value: return (True, "")` treats every falsy value as satisfied, so
"valid exactly when the value parses as a date strictly before today" fails. -/
theorem date_in_past_counterexample :
    ValidationRuleImpl.validate 20251012 "date_in_past" (Value.str "") [] = (true, "")
    ∧ toDateOpt (Value.str "") = Option.none := ⟨rfl, rfl⟩

/-- Claim C8, amended: for truthy (present, non-empty) values, `date_in_past`
is valid iff the value parses as a date strictly before the current date, and
an unparsable truthy value yields the structured result
`(False, "Ungültiges Datum")` rather than an exception; falsy values
(`None`, `""`, `0`) are treated as satisfied with `(true, "")`. -/
theorem date_in_past_semantics (today : Nat) (value : Value)
    (context : List (String × Value)) :
    (value.truthy = false →
      ValidationRuleImpl.validate today "date_in_past" value context = (true, ""))
    ∧ (value.truthy = true → toDateOpt value = Option.none →
      ValidationRuleImpl.validate today "date_in_past" value context
        = (false, "Ungültiges Datum"))
    ∧ (∀ d, value.truthy = true → toDateOpt value = some d →
      ((ValidationRuleImpl.validate today "date_in_past" value context).1 = true ↔ d < today)) := by
  refine ⟨?_, ?_, ?_⟩
  · intro h
    simp [ValidationRuleImpl.validate, h]
  · intro h hd
    simp [ValidationRuleImpl.validate, h, hd]
  · intro d h hd
    simp [ValidationRuleImpl.validate, h, hd]

/-- Witness for C8 (amended): a past date validates, an unparsable string
yields the invalid-date result. -/
theorem date_in_past_semantics_witness :
    (ValidationRuleImpl.validate 20251012 "date_in_past" (Value.str "2020-06-15") []).1 = true
    ∧ ValidationRuleImpl.validate 20251012 "date_in_past" (Value.str "kein-datum-hier") []
      = (false, "Ungültiges Datum") := by
  constructor
  · exact ((date_in_past_semantics 20251012 (Value.str "2020-06-15") []).2.2
      20200615 rfl rfl).mpr (by decide)
  · exact (date_in_past_semantics 20251012 (Value.str "kein-datum-hier") []).2.1 rfl rfl

/-- Counterexample for C3 as stated: `date_after_geburtsdatum` is referenced by
the record type's field metadata but has no branch in
`ValidationRuleImpl.validate`; it falls through to the fail-open default, so
with both dates present and parsable and the value strictly BEFORE the
referenced sibling it still returns `(true, "")`, contradicting
"valid iff the value's date ≥ the referenced sibling's date". -/
theorem date_after_geburtsdatum_counterexample :
    ValidationRuleImpl.validate 20251012 "date_after_geburtsdatum" (Value.str "1980-01-01")
        [("geburtsdatum", Value.str "1990-05-01")] = (true, "")
    ∧ toDateOpt (Value.str "1980-01-01") = some 19800101
    ∧ toDateOpt (Value.str "1990-05-01") = some 19900501
    ∧ (19800101 : Nat) < 19900501 := ⟨rfl, rfl, rfl, by decide⟩

/-- Claim C3, amended: only `date_after_eintrittsdatum` implements the
date-after semantics: when the referenced sibling is absent from the context
(or the value is falsy) it returns `(true, "")`, and when the value is present
and both dates parse it is valid iff the value's date ≥ the sibling's date.
`date_after_geburtsdatum` is not recognized by the engine and returns
`(true, "")` for every value and context. -/
theorem date_after_semantics (today : Nat) (value : Value)
    (context : List (String × Value)) :
    (dictContains context "eintrittsdatum" = false →
      ValidationRuleImpl.validate today "date_after_eintrittsdatum" value context = (true, ""))
    ∧ (∀ d e, value.truthy = true → toDateOpt value = some d →
      toDateOpt ((dictGet? context "eintrittsdatum").getD Value.none) = some e →
      ((ValidationRuleImpl.validate today "date_after_eintrittsdatum" value context).1 = true
        ↔ e ≤ d))
    ∧ ValidationRuleImpl.validate today "date_after_geburtsdatum" value context = (true, "") := by
  refine ⟨?_, ?_, ?_⟩
  · intro h
    simp [ValidationRuleImpl.validate, h]
  · intro d e ht hd he
    have hc : dictContains context "eintrittsdatum" = true := by
      cases hq : dictGet? context "eintrittsdatum" with
      | none =>
        rw [hq] at he
        simp [toDateOpt] at he
      | some v => simp [dictContains, hq]
    simp [ValidationRuleImpl.validate, ht, hd, he, hc]
  · simp [ValidationRuleImpl.validate]

/-- Witness for C3 (amended): absent sibling passes even with a present value;
with both present, `2010-03-01 ≥ 2000-01-01` validates. -/
theorem date_after_semantics_witness :
    ValidationRuleImpl.validate 20251012 "date_after_eintrittsdatum" (Value.str "2020-01-01") []
      = (true, "")
    ∧ (ValidationRuleImpl.validate 20251012 "date_after_eintrittsdatum" (Value.str "2010-03-01")
        [("eintrittsdatum", Value.str "2000-01-01")]).1 = true := by
  constructor
  · exact (date_after_semantics 20251012 (Value.str "2020-01-01") []).1 rfl
  · exact ((date_after_semantics 20251012 (Value.str "2010-03-01")
      [("eintrittsdatum", Value.str "2000-01-01")]).2.1
      20100301 20000101 rfl rfl rfl).mpr (by decide)

/-- Counterexample for C4 as stated: two runs of `generate_complete_schema` on
identical registry contents and the same record type are NOT equal, because the
source embeds `datetime.now().isoformat()` into `meta.generated_at`; with two
different clock readings the assembled schemas differ. -/
theorem schema_not_reproducible :
    EnhancedFormGenerator.generate_complete_schema "2025-01-01T00:00:00"
        ⟨"MitarbeiterFormular", Option.none, []⟩ Option.none [] []
      ≠ EnhancedFormGenerator.generate_complete_schema "2025-01-02T00:00:00"
        ⟨"MitarbeiterFormular", Option.none, []⟩ Option.none [] [] := by
  intro h
  exact absurd (congrArg (fun s => s.meta.generated_at) h) (by decide)

/-- Claim C4, amended: schema assembly is pure and deterministic given its
inputs AND the clock reading: every component of the schema except
`meta.generated_at` depends only on the record type, the config and the two
registry snapshots (so two runs with identical inputs differ at most in the
`generated_at` timestamp), and assembly, being a pure function of these
snapshots, mutates neither the registries nor the record type. -/
theorem schema_deterministic_given_clock (now1 now2 : String) (rt : RecordType)
    (cfg : Option (List (String × Value))) (creg : CalcRegistry) (wreg : List Step) :
    (EnhancedFormGenerator.generate_complete_schema now1 rt cfg creg wreg).input_fields
      = (EnhancedFormGenerator.generate_complete_schema now2 rt cfg creg wreg).input_fields
    ∧ (EnhancedFormGenerator.generate_complete_schema now1 rt cfg creg wreg).calculated_fields
      = (EnhancedFormGenerator.generate_complete_schema now2 rt cfg creg wreg).calculated_fields
    ∧ (EnhancedFormGenerator.generate_complete_schema now1 rt cfg creg wreg).all_fields
      = (EnhancedFormGenerator.generate_complete_schema now2 rt cfg creg wreg).all_fields
    ∧ (EnhancedFormGenerator.generate_complete_schema now1 rt cfg creg wreg).groups
      = (EnhancedFormGenerator.generate_complete_schema now2 rt cfg creg wreg).groups
    ∧ (EnhancedFormGenerator.generate_complete_schema now1 rt cfg creg wreg).workflow
      = (EnhancedFormGenerator.generate_complete_schema now2 rt cfg creg wreg).workflow
    ∧ (EnhancedFormGenerator.generate_complete_schema now1 rt cfg creg wreg).validation_rules
      = (EnhancedFormGenerator.generate_complete_schema now2 rt cfg creg wreg).validation_rules
    ∧ (EnhancedFormGenerator.generate_complete_schema now1 rt cfg creg wreg).config
      = (EnhancedFormGenerator.generate_complete_schema now2 rt cfg creg wreg).config
    ∧ (EnhancedFormGenerator.generate_complete_schema now1 rt cfg creg wreg).meta.title
      = (EnhancedFormGenerator.generate_complete_schema now2 rt cfg creg wreg).meta.title
    ∧ (EnhancedFormGenerator.generate_complete_schema now1 rt cfg creg wreg).meta.class_name
      = (EnhancedFormGenerator.generate_complete_schema now2 rt cfg creg wreg).meta.class_name
    ∧ (EnhancedFormGenerator.generate_complete_schema now1 rt cfg creg wreg).meta.generated_at
      = now1 :=
  ⟨rfl, rfl, rfl, rfl, rfl, rfl, rfl, rfl, rfl, rfl⟩

/-- Claim C1: with threshold 3 and an empty session state, three distinct
subjects confirming the same field key make it verified (count = 3 ≥ 3); a
fourth subject's confirm attempt is then a no-op (for any fourth subject, in
particular a distinct one); and a repeated confirm by a subject that has
already contributed leaves the state — in particular the counter —
unchanged at every intermediate stage, so each subject counts at most once. -/
theorem quorum_threshold_three (k s1 s2 s3 s4 : String)
    (h12 : s1 ≠ s2) (h13 : s1 ≠ s3) (h23 : s2 ≠ s3) :
    (confirm 3 true s3 k (confirm 3 true s2 k (confirm 3 true s1 k QState.empty))).getCount k = 3
    ∧ confirm 3 true s4 k
        (confirm 3 true s3 k (confirm 3 true s2 k (confirm 3 true s1 k QState.empty)))
      = confirm 3 true s3 k (confirm 3 true s2 k (confirm 3 true s1 k QState.empty))
    ∧ confirm 3 true s1 k (confirm 3 true s1 k QState.empty)
      = confirm 3 true s1 k QState.empty
    ∧ confirm 3 true s1 k (confirm 3 true s2 k (confirm 3 true s1 k QState.empty))
      = confirm 3 true s2 k (confirm 3 true s1 k QState.empty)
    ∧ confirm 3 true s2 k (confirm 3 true s2 k (confirm 3 true s1 k QState.empty))
      = confirm 3 true s2 k (confirm 3 true s1 k QState.empty) := by
  have e1 : confirm 3 true s1 k QState.empty = ⟨[(k, 1)], [(s1, [(k, true)])]⟩ := by
    simp [confirm, QState.empty, QState.getCount, QState.contributed, dictGet?, dictInsert]
  have e2 : confirm 3 true s2 k (⟨[(k, 1)], [(s1, [(k, true)])]⟩ : QState)
      = ⟨[(k, 2)], [(s1, [(k, true)]), (s2, [(k, true)])]⟩ := by
    simp [confirm, QState.getCount, QState.contributed, dictGet?, dictInsert, h12, Ne.symm h12]
  have e3 : confirm 3 true s3 k
        (⟨[(k, 2)], [(s1, [(k, true)]), (s2, [(k, true)])]⟩ : QState)
      = ⟨[(k, 3)], [(s1, [(k, true)]), (s2, [(k, true)]), (s3, [(k, true)])]⟩ := by
    simp [confirm, QState.getCount, QState.contributed, dictGet?, dictInsert, h13, h23]
  rw [e1, e2, e3]
  refine ⟨by simp [QState.getCount, dictGet?], ?_, ?_, ?_, ?_⟩
  · simp [confirm, QState.getCount, dictGet?]
  · simp [confirm, QState.getCount, QState.contributed, dictGet?]
  · simp [confirm, QState.getCount, QState.contributed, dictGet?]
  · simp [confirm, QState.getCount, QState.contributed, dictGet?, h12]

/-- Witness for C1: subjects `"a"`, `"b"`, `"c"` reach the quorum on key
`"k"`; `"d"` is then a no-op and repeats never count twice. -/
theorem quorum_threshold_three_witness :
    (confirm 3 true "c" "k" (confirm 3 true "b" "k" (confirm 3 true "a" "k" QState.empty))).getCount "k" = 3
    ∧ confirm 3 true "d" "k"
        (confirm 3 true "c" "k" (confirm 3 true "b" "k" (confirm 3 true "a" "k" QState.empty)))
      = confirm 3 true "c" "k" (confirm 3 true "b" "k" (confirm 3 true "a" "k" QState.empty))
    ∧ confirm 3 true "a" "k" (confirm 3 true "a" "k" QState.empty)
      = confirm 3 true "a" "k" QState.empty
    ∧ confirm 3 true "a" "k" (confirm 3 true "b" "k" (confirm 3 true "a" "k" QState.empty))
      = confirm 3 true "b" "k" (confirm 3 true "a" "k" QState.empty)
    ∧ confirm 3 true "b" "k" (confirm 3 true "b" "k" (confirm 3 true "a" "k" QState.empty))
      = confirm 3 true "b" "k" (confirm 3 true "a" "k" QState.empty) :=
  quorum_threshold_three "k" "a" "b" "c" "d" (by decide) (by decide) (by decide)

/-- Claim C2: over every sequence of confirm operations, every field's global
counter never decreases; a set contributed flag stays set; a confirm by a
subject whose flag is already set for that field leaves the whole state (in
particular that field's counter) unchanged, so the flag is effectively set at
most once; and once a field's count has reached a threshold it stays at or
above it (verified is terminal). -/
theorem quorum_invariants (ops : List ConfirmOp) (st : QState) :
    (∀ f, st.getCount f ≤ (runConfirm ops st).getCount f)
    ∧ (∀ a b, st.contributed a b = true → (runConfirm ops st).contributed a b = true)
    ∧ (∀ th nc subj fld, st.contributed subj fld = true → confirm th nc subj fld st = st)
    ∧ (∀ th f, th ≤ st.getCount f → th ≤ (runConfirm ops st).getCount f) :=
  ⟨fun f => getCount_runConfirm_le ops st f,
   fun a b h => contributed_runConfirm_mono ops st a b h,
   fun th nc subj fld h => confirm_of_contributed th nc subj fld st h,
   fun _ f h => le_trans h (getCount_runConfirm_le ops st f)⟩

/-- Witness for C2: from a state where subject `"a"` has contributed to `"k"`
(count 1), running the demonstration sequence keeps the counter monotone, keeps
the flag set, treats a repeat confirm by `"a"` as a no-op, and preserves
`1 ≤ count`. -/
theorem quorum_invariants_witness :
    demoQState.getCount "k" ≤ (runConfirm demoOps demoQState).getCount "k"
    ∧ (runConfirm demoOps demoQState).contributed "a" "k" = true
    ∧ confirm 3 true "a" "k" demoQState = demoQState
    ∧ 1 ≤ (runConfirm demoOps demoQState).getCount "k" :=
  ⟨(quorum_invariants demoOps demoQState).1 "k",
   (quorum_invariants demoOps demoQState).2.1 "a" "k" (by decide),
   (quorum_invariants demoOps demoQState).2.2.1 3 true "a" "k" (by decide),
   (quorum_invariants demoOps demoQState).2.2.2 1 "k" (by decide)⟩

theorem orderedInsert_of_forall_rel {α : Type} (r : α → α → Prop) [DecidableRel r]
    (a : α) (l : List α) (h : ∀ b ∈ l, r a b) : l.orderedInsert r a = a :: l := by
  cases l with
  | nil => rfl
  | cons b t => exact List.orderedInsert_of_le r t (h b (by simp))

theorem orderedInsert_insEnd {α : Type} (r : α → α → Prop) [DecidableRel r] [IsTrans α r]
    (a x : α) (l : List α) (hal : ∀ b ∈ l, r a b) :
    (insEnd r x l).orderedInsert r a
      = if r a x then a :: insEnd r x l else x :: a :: l := by
  by_cases hax : r a x
  · rw [if_pos hax]
    cases l with
    | nil => exact List.orderedInsert_of_le r [] hax
    | cons b t =>
      rw [show insEnd r x (b :: t) = if r b x then b :: insEnd r x t else x :: b :: t from rfl]
      by_cases hbx : r b x
      · rw [if_pos hbx]
        exact List.orderedInsert_of_le r _ (hal b (by simp))
      · rw [if_neg hbx]
        exact List.orderedInsert_of_le r _ hax
  · rw [if_neg hax]
    have hxl : insEnd r x l = x :: l := by
      cases l with
      | nil => rfl
      | cons b t =>
        have hbx : ¬ r b x := fun hbx => hax (IsTrans.trans _ _ _ (hal b (by simp)) hbx)
        simp [insEnd, hbx]
    rw [hxl]
    have hstep : (x :: l).orderedInsert r a = x :: l.orderedInsert r a := by
      rw [List.orderedInsert, if_neg hax]
    rw [hstep, orderedInsert_of_forall_rel r a l hal]

theorem insertionSort_append_singleton {α : Type} (r : α → α → Prop) [DecidableRel r]
    [IsTrans α r] (x : α) :
    ∀ l : List α, l.Sorted r → List.insertionSort r (l ++ [x]) = insEnd r x l
  | [], _ => rfl
  | a :: l, h => by
    have hs : l.Sorted r := h.of_cons
    have hal : ∀ b ∈ l, r a b := List.rel_of_sorted_cons h
    have h1 : List.insertionSort r ((a :: l) ++ [x])
        = (List.insertionSort r (l ++ [x])).orderedInsert r a := rfl
    rw [h1, insertionSort_append_singleton r x l hs, orderedInsert_insEnd r a x l hal]
    rfl

theorem mem_insEnd {α : Type} (r : α → α → Prop) [DecidableRel r] (x y : α) :
    ∀ l : List α, (y ∈ insEnd r x l ↔ y = x ∨ y ∈ l) := by
  intro l
  induction l with
  | nil => simp [insEnd]
  | cons b t ih =>
    by_cases hbx : r b x
    · rw [show insEnd r x (b :: t) = b :: insEnd r x t by simp [insEnd, hbx]]
      rw [List.mem_cons, ih, List.mem_cons]
      tauto
    · rw [show insEnd r x (b :: t) = x :: b :: t by simp [insEnd, hbx]]
      simp only [List.mem_cons]

theorem map_snd_insEnd (p : Nat × Step) :
    ∀ l : List (Nat × Step),
      (insEnd tstepLe p l).map Prod.snd = insEnd stepLe p.2 (l.map Prod.snd) := by
  intro l
  induction l with
  | nil => rfl
  | cons b t ih =>
    by_cases h : b.2.order ≤ p.2.order
    · have h1 : tstepLe b p := h
      have h2 : stepLe b.2 p.2 := h
      simp only [insEnd, if_pos h1, List.map_cons, ih, if_pos h2]
    · have h1 : ¬ tstepLe b p := h
      have h2 : ¬ stepLe b.2 p.2 := h
      simp only [insEnd, if_neg h1, List.map_cons, if_neg h2]

theorem pairwise_stepLex_insEnd (p : Nat × Step) :
    ∀ l : List (Nat × Step), l.Sorted tstepLe → l.Pairwise stepLex →
      (∀ q ∈ l, q.1 < p.1) → (insEnd tstepLe p l).Pairwise stepLex := by
  intro l
  induction l with
  | nil =>
    intro _ _ _
    simp [insEnd]
  | cons b t ih =>
    intro hs hp hn
    by_cases hbp : tstepLe b p
    · have he : insEnd tstepLe p (b :: t) = b :: insEnd tstepLe p t := by
        simp [insEnd, hbp]
      rw [he, List.pairwise_cons]
      constructor
      · intro q hq
        rcases (mem_insEnd tstepLe p q t).mp hq with heq | hq'
        · rw [heq]
          rcases lt_or_eq_of_le (show b.2.order ≤ p.2.order from hbp) with hlt | heq2
          · exact Or.inl hlt
          · exact Or.inr ⟨heq2, hn b (by simp)⟩
        · exact (List.pairwise_cons.mp hp).1 q hq'
      · exact ih hs.of_cons hp.of_cons (fun q hq => hn q (by simp [hq]))
    · have hpb : p.2.order < b.2.order := not_le.mp hbp
      have he : insEnd tstepLe p (b :: t) = p :: b :: t := by
        simp [insEnd, hbp]
      rw [he, List.pairwise_cons]
      refine ⟨fun q hq => ?_, hp⟩
      rcases List.mem_cons.mp hq with rfl | hq'
      · exact Or.inl hpb
      · exact Or.inl (lt_of_lt_of_le hpb (List.rel_of_sorted_cons hs q hq'))

theorem runRegisterT_invariant :
    ∀ (regs : List Step) (n : Nat) (l : List (Nat × Step)),
      l.Sorted tstepLe → l.Pairwise stepLex → (∀ q ∈ l, q.1 < n) →
      ((regs.enumFrom n).foldl registerT l).Sorted tstepLe
      ∧ ((regs.enumFrom n).foldl registerT l).Pairwise stepLex
      ∧ ((regs.enumFrom n).foldl registerT l).Perm (l ++ regs.enumFrom n)
      ∧ (∀ q ∈ (regs.enumFrom n).foldl registerT l, q.1 < n + regs.length)
      ∧ ((regs.enumFrom n).foldl registerT l).map Prod.snd
        = regs.foldl WorkflowStepRegistry.register (l.map Prod.snd) := by
  intro regs
  induction regs with
  | nil =>
    intro n l hs hp hn
    exact ⟨hs, hp, by simp, fun q hq => Nat.lt_of_lt_of_le (hn q hq) (by simp), rfl⟩
  | cons s regs' ih =>
    intro n l hs hp hn
    rw [show List.enumFrom n (s :: regs') = (n, s) :: List.enumFrom (n + 1) regs' from rfl]
    simp only [List.foldl_cons, List.length_cons]
    have hA : registerT l (n, s) = insEnd tstepLe (n, s) l :=
      insertionSort_append_singleton tstepLe (n, s) l hs
    have hsorted' : (registerT l (n, s)).Sorted tstepLe :=
      List.sorted_insertionSort tstepLe _
    have hpair' : (registerT l (n, s)).Pairwise stepLex := by
      rw [hA]
      exact pairwise_stepLex_insEnd (n, s) l hs hp hn
    have hbound' : ∀ q ∈ registerT l (n, s), q.1 < n + 1 := by
      intro q hq
      rw [hA] at hq
      rcases (mem_insEnd tstepLe (n, s) q l).mp hq with rfl | hq'
      · exact Nat.lt_succ_self n
      · exact Nat.lt_succ_of_lt (hn q hq')
    have hperm' : (registerT l (n, s)).Perm (l ++ [(n, s)]) :=
      List.perm_insertionSort tstepLe _
    have hmap' : (registerT l (n, s)).map Prod.snd
        = WorkflowStepRegistry.register (l.map Prod.snd) s := by
      rw [hA, map_snd_insEnd]
      have hms : (l.map Prod.snd).Sorted stepLe := hs.map Prod.snd (fun _ _ h => h)
      rw [WorkflowStepRegistry.register,
        insertionSort_append_singleton stepLe s (l.map Prod.snd) hms]
    obtain ⟨ih1, ih2, ih3, ih4, ih5⟩ :=
      ih (n + 1) (registerT l (n, s)) hsorted' hpair' hbound'
    refine ⟨ih1, ih2, ?_, ?_, ?_⟩
    · refine (ih3.trans (hperm'.append_right _)).trans ?_
      rw [List.append_assoc, List.singleton_append]
    · intro q hq
      have hb := ih4 q hq
      omega
    · rw [ih5, hmap']

/-- Claim C6: every registration sequence leaves the workflow registry
containing exactly the registered steps (a permutation), sorted by `order`
ascending, with equal orders in registration sequence: replaying the run on
index-tagged steps (`List.enum`) produces the same list of steps, and that
tagged list is pairwise increasing in the strict lexicographic
(order, registration index) order.  In particular, three steps registered with
orders `[2, 1, 1]` come out as [first order-1 step, second order-1 step,
order-2 step]. -/
theorem workflow_steps_sorted_stable (regs : List Step) :
    (WorkflowStepRegistry.runRegister regs).Sorted stepLe
    ∧ (WorkflowStepRegistry.runRegister regs).Perm regs
    ∧ WorkflowStepRegistry.runRegister regs = (runRegisterT regs.enum).map Prod.snd
    ∧ (runRegisterT regs.enum).Perm regs.enum
    ∧ (runRegisterT regs.enum).Pairwise stepLex
    ∧ WorkflowStepRegistry.runRegister [demoStepA, demoStepB, demoStepC]
      = [demoStepB, demoStepC, demoStepA] := by
  obtain ⟨h1, h2, h3, h4, h5⟩ :=
    runRegisterT_invariant regs 0 [] (by simp) (by simp) (by simp)
  have hrun : WorkflowStepRegistry.runRegister regs = (runRegisterT regs.enum).map Prod.snd := by
    rw [show runRegisterT regs.enum = (regs.enumFrom 0).foldl registerT [] from rfl, h5]
    rfl
  have hperm : (runRegisterT regs.enum).Perm regs.enum := by simpa using h3
  refine ⟨?_, ?_, hrun, hperm, ?_, ?_⟩
  · rw [hrun]
    exact h1.map Prod.snd (fun _ _ h => h)
  · rw [hrun]
    have := hperm.map Prod.snd
    rwa [List.enum_map_snd] at this
  · exact h2
  · rfl
